import Mathlib

/-!
Verification of the fetch-with-cache orchestration core of the `scout`
repository: a shallow embedding in Lean 4 of `src/scrapers/cache.py`
(`MemoryCache`, `RedisCache`, `create_cache_key`, `CachedMethod`),
`src/scrapers/source.py` (`SourceAdapter`), `src/scrapers/scraper.py`
(`ScrapeResult`) and `src/scrapers/twitter_scraper.py` (`TwitterScraper`).

Conventions of the embedding:
- Python runtime values stored in caches or passed as call arguments are
  modelled by the inductive `Value`; the Python object `None` is the
  constructor `Value.none`.
- Instants (`datetime.now()`) are modelled as integers (seconds); a
  `timedelta(seconds=ttl)` added to an instant is integer addition.
- Python `dict` objects are modelled as association lists with the
  lookup/update/delete semantics of `dict` (`alGet`/`alSet`/`alDel`).
- Library functions external to the repository (`hashlib.md5`,
  `json.loads`, the `redis` client) are parameters of the definitions that
  call them, so every theorem quantifies over their behaviour; `json.dumps`
  with `sort_keys=True` is embedded concretely as `dumps` because the
  key-derivation claim depends on its determinism and key ordering.
- Raised exceptions are `Except.error`; a `try/except` block is an explicit
  match on the exception kind, re-raising the kinds that the Python
  `except` clause does not list.
-/

namespace Scout

/-! ### Lexicographic string order

Python compares strings (and hence the tuples produced by
`sorted(kwargs.items())`) lexicographically by code point.  The `String`
order of the Lean core library does not reduce in the kernel, so the same
order is defined here on the underlying character lists. -/

def charsLt : List Char → List Char → Bool
  | [], [] => false
  | [], _ :: _ => true
  | _ :: _, [] => false
  | a :: as, b :: bs => if a < b then true else if b < a then false else charsLt as bs

def strLtb (a b : String) : Bool := charsLt a.data b.data

def strLeb (a b : String) : Bool := ! strLtb b a

theorem charsLt_asymm : ∀ a b : List Char, charsLt a b = true → charsLt b a = false
  | [], [], h => by simp [charsLt] at h
  | [], _ :: _, _ => by simp [charsLt]
  | _ :: _, [], h => by simp [charsLt] at h
  | a :: as, b :: bs, h => by
    simp only [charsLt] at h ⊢
    by_cases hab : a < b
    · simp [hab, lt_asymm hab]
    · by_cases hba : b < a
      · simp [hab, hba] at h
      · simpa [hab, hba] using charsLt_asymm as bs (by simpa [hab, hba] using h)

theorem charsLt_connex : ∀ a b : List Char, charsLt a b = false → charsLt b a = false → a = b
  | [], [], _, _ => rfl
  | [], _ :: _, h, _ => by simp [charsLt] at h
  | _ :: _, [], _, h => by simp [charsLt] at h
  | a :: as, b :: bs, h1, h2 => by
    simp only [charsLt] at h1 h2
    by_cases hab : a < b
    · simp [hab] at h1
    · by_cases hba : b < a
      · simp [hba] at h2
      · have hEq : a = b := le_antisymm (not_lt.mp hba) (not_lt.mp hab)
        subst hEq
        have := charsLt_connex as bs (by simpa [hab] using h1) (by simpa [hab] using h2)
        rw [this]

theorem charsLt_trans :
    ∀ a b c : List Char, charsLt a b = true → charsLt b c = true → charsLt a c = true
  | [], _, _ :: _, _, _ => by simp [charsLt]
  | [], [], [], h1, _ => by simp [charsLt] at h1
  | [], _ :: _, [], _, h2 => by simp [charsLt] at h2
  | _ :: _, [], _, h1, _ => by simp [charsLt] at h1
  | _ :: _, _ :: _, [], _, h2 => by simp [charsLt] at h2
  | a :: as, b :: bs, c :: cs, h1, h2 => by
    simp only [charsLt] at h1 h2 ⊢
    by_cases hab : a < b
    · by_cases hbc : b < c
      · simp [lt_trans hab hbc]
      · by_cases hcb : c < b
        · simp [hbc, hcb] at h2
        · have hEq : b = c := le_antisymm (not_lt.mp hcb) (not_lt.mp hbc)
          subst hEq
          simp [hab]
    · by_cases hba : b < a
      · simp [hab, hba] at h1
      · have hEq : a = b := le_antisymm (not_lt.mp hba) (not_lt.mp hab)
        subst hEq
        by_cases hac : a < c
        · simp [hac]
        · by_cases hca : c < a
          · simp [hac, hca] at h2
          · have hEq2 : a = c := le_antisymm (not_lt.mp hca) (not_lt.mp hac)
            subst hEq2
            simp only [lt_irrefl, if_false]
            exact charsLt_trans as bs cs (by simpa [lt_irrefl] using h1)
              (by simpa [lt_irrefl] using h2)

theorem string_eq_of_data_eq {a b : String} (h : a.data = b.data) : a = b := by
  cases a
  cases b
  exact congrArg String.mk h

/-! Sorting key/value pairs by key, as Python `sorted` does on the tuples of
`dict.items()` (tuple comparison looks at the second component only when the
first components are equal, which cannot happen for distinct `dict` keys). -/

def keyLE {α : Type} (a b : String × α) : Prop := strLeb a.1 b.1 = true

def keyLT {α : Type} (a b : String × α) : Prop := strLtb a.1 b.1 = true

instance {α : Type} : DecidableRel (@keyLE α) :=
  fun a b => inferInstanceAs (Decidable (strLeb a.1 b.1 = true))

instance {α : Type} : IsTotal (String × α) keyLE := by
  constructor
  intro a b
  by_cases h : charsLt b.1.data a.1.data = true
  · right
    simpa [keyLE, strLeb, strLtb] using charsLt_asymm _ _ h
  · left
    simpa [keyLE, strLeb, strLtb] using h

instance {α : Type} : IsTrans (String × α) keyLE := by
  constructor
  intro a b c h1 h2
  simp only [keyLE, strLeb, strLtb, Bool.not_eq_true', Bool.not_eq_true] at h1 h2 ⊢
  by_cases hbc : charsLt b.1.data c.1.data = true
  · by_cases hca : charsLt c.1.data a.1.data = true
    · have := charsLt_trans _ _ _ hbc hca
      rw [this] at h1
      exact absurd h1 (by simp)
    · simpa using hca
  · have hEq : b.1.data = c.1.data :=
      charsLt_connex _ _ (by simpa using hbc) h2
    rw [← hEq]
    exact h1

instance {α : Type} : IsAntisymm (String × α) keyLT := by
  constructor
  intro a b h1 h2
  simp only [keyLT, strLtb] at h1 h2
  have := charsLt_asymm _ _ h1
  rw [this] at h2
  exact absurd h2 (by simp)

def sortByKey {α : Type} (l : List (String × α)) : List (String × α) :=
  List.insertionSort keyLE l

theorem sortByKey_perm {α : Type} (l : List (String × α)) : (sortByKey l).Perm l :=
  List.perm_insertionSort _ _

theorem keyLT_of_keyLE_of_ne {α : Type} {a b : String × α}
    (hle : keyLE a b) (hne : a.1 ≠ b.1) : keyLT a b := by
  simp only [keyLE, strLeb, strLtb, Bool.not_eq_true'] at hle
  simp only [keyLT, strLtb]
  by_cases h : charsLt a.1.data b.1.data = true
  · exact h
  · exact absurd (string_eq_of_data_eq (charsLt_connex _ _ (by simpa using h) hle)) hne

/-- Sorting by key is determined by the underlying key/value mapping: two
lists of pairs that are permutations of each other with pairwise-distinct
keys sort to the same list. -/
theorem sortByKey_eq_of_perm {α : Type} {l1 l2 : List (String × α)}
    (hp : l1.Perm l2) (hnd : (l1.map Prod.fst).Nodup) : sortByKey l1 = sortByKey l2 := by
  have hp1 := sortByKey_perm l1
  have hp2 := sortByKey_perm l2
  have hperm : (sortByKey l1).Perm (sortByKey l2) := hp1.trans (hp.trans hp2.symm)
  have hnd1 : ((sortByKey l1).map Prod.fst).Nodup := ((hp1.map Prod.fst).nodup_iff).mpr hnd
  have hnd2 : ((sortByKey l2).map Prod.fst).Nodup :=
    ((hp2.map Prod.fst).nodup_iff).mpr (((hp.map Prod.fst).nodup_iff).mp hnd)
  have hs1 : List.Sorted keyLE (sortByKey l1) := List.sorted_insertionSort _ _
  have hs2 : List.Sorted keyLE (sortByKey l2) := List.sorted_insertionSort _ _
  have hst1 : List.Sorted keyLT (sortByKey l1) :=
    (hs1.and (List.pairwise_map.mp hnd1)).imp fun h => keyLT_of_keyLE_of_ne h.1 h.2
  have hst2 : List.Sorted keyLT (sortByKey l2) :=
    (hs2.and (List.pairwise_map.mp hnd2)).imp fun h => keyLT_of_keyLE_of_ne h.1 h.2
  exact List.eq_of_perm_of_sorted hperm hst1 hst2

/-! ### Python values and `json.dumps` -/

/-- A Python runtime value, as far as the caching core observes it:
`None`, booleans, integers, strings, sequences and string-keyed mappings. -/
inductive Value : Type where
  | none : Value
  | bool : Bool → Value
  | int : Int → Value
  | str : String → Value
  | arr : List Value → Value
  | obj : List (String × Value) → Value

/-- Python `x is None` / `x is not None`, the test used by `MemoryCache.get`
callers and by `CachedMethod`. -/
def Value.isNone : Value → Bool
  | Value.none => true
  | _ => false

theorem Value.isNone_eq_false_iff {v : Value} : v.isNone = false ↔ v ≠ Value.none := by
  cases v <;> simp [Value.isNone]

def joinComma : List String → String
  | [] => ""
  | [s] => s
  | s :: t => s ++ ", " ++ joinComma t

def escapeChar (c : Char) : String :=
  if c = '"' then "\\\"" else if c = '\\' then "\\\\"
  else if c = '\n' then "\\n" else if c = '\t' then "\\t"
  else if c = '\r' then "\\r" else String.singleton c

def quoteString (s : String) : String :=
  "\"" ++ String.join (s.data.map escapeChar) ++ "\""

/-! The mutual block below embeds `json.dumps(v, sort_keys=True)` with the
default separators `", "` and `": "`: object keys are serialized in sorted
order at every level.  (Sorting the serialized pairs by key equals
serializing the key-sorted pairs, since a pair's serialization does not
depend on its position.) -/
mutual
def dumps : Value → String
  | Value.none => "null"
  | Value.bool b => if b then "true" else "false"
  | Value.int n => toString n
  | Value.str s => quoteString s
  | Value.arr l => "[" ++ joinComma (dumpsList l) ++ "]"
  | Value.obj kvs =>
      "\x7b" ++ joinComma ((sortByKey (dumpsPairs kvs)).map
        (fun p => quoteString p.1 ++ ": " ++ p.2)) ++ "\x7d"
def dumpsList : List Value → List String
  | [] => []
  | v :: t => dumps v :: dumpsList t
def dumpsPairs : List (String × Value) → List (String × String)
  | [] => []
  | (k, v) :: t => (k, dumps v) :: dumpsPairs t
end

/-! ### `create_cache_key` (src/scrapers/cache.py lines 122-127) -/

/-- The dictionary `{"args": args, "kwargs": sorted(kwargs.items())}` built
by `create_cache_key`; a sorted item is the two-element tuple `(name, value)`,
which `json.dumps` serializes as a two-element array. -/
def keyData (args : List Value) (kwargs : List (String × Value)) : Value :=
  Value.obj [("args", Value.arr args),
             ("kwargs", Value.arr ((sortByKey kwargs).map
               (fun p => Value.arr [Value.str p.1, p.2])))]

/-- `create_cache_key(*args, **kwargs)`: hash the canonical serialization of
the arguments.  `md5hex` stands for the external library function
`hashlib.md5(...).hexdigest()`, so every theorem below holds for the real
digest in particular. -/
def create_cache_key (md5hex : String → String) (args : List Value)
    (kwargs : List (String × Value)) : String :=
  md5hex (dumps (keyData args kwargs))

/-! ### Association lists: the model of Python `dict` -/

def alGet {α : Type} : List (String × α) → String → Option α
  | [], _ => Option.none
  | (k, v) :: t, key => if k = key then some v else alGet t key

/-- `del d[key]` (and the guarded `if key in d: del d[key]`, which removes
nothing when the key is absent). -/
def alDel {α : Type} : List (String × α) → String → List (String × α)
  | [], _ => []
  | (k, v) :: t, key => if k = key then alDel t key else (k, v) :: alDel t key

/-- `d[key] = v`: afterwards `key` maps to `v` and every other key is
unchanged. -/
def alSet {α : Type} (l : List (String × α)) (key : String) (v : α) : List (String × α) :=
  (key, v) :: alDel l key

theorem alGet_alDel_self {α : Type} (l : List (String × α)) (k : String) :
    alGet (alDel l k) k = Option.none := by
  induction l with
  | nil => rfl
  | cons p t ih =>
    obtain ⟨k1, v1⟩ := p
    by_cases hp : k1 = k
    · simpa [alDel, hp] using ih
    · simpa [alDel, alGet, hp] using ih

theorem alGet_alDel_ne {α : Type} (l : List (String × α)) (k k' : String) (h : k' ≠ k) :
    alGet (alDel l k) k' = alGet l k' := by
  induction l with
  | nil => rfl
  | cons p t ih =>
    obtain ⟨k1, v1⟩ := p
    have hne : ¬ (k = k') := fun hc => h hc.symm
    by_cases hp : k1 = k
    · simpa [alDel, alGet, hp, hne] using ih
    · by_cases hk : k1 = k'
      · simp [alDel, alGet, hp, hk, h]
      · simpa [alDel, alGet, hp, hk] using ih

theorem alGet_alSet_self {α : Type} (l : List (String × α)) (k : String) (v : α) :
    alGet (alSet l k v) k = some v := by
  simp [alSet, alGet]

theorem alGet_alSet_ne {α : Type} (l : List (String × α)) (k k' : String) (v : α) (h : k' ≠ k) :
    alGet (alSet l k v) k' = alGet l k' := by
  have hne : ¬ (k = k') := fun hc => h hc.symm
  simp only [alSet, alGet, hne, if_false]
  exact alGet_alDel_ne l k k' h

theorem alGet_alDel_some {α : Type} (l : List (String × α)) (k k' : String) (v : α)
    (h : alGet (alDel l k) k' = some v) : alGet l k' = some v := by
  by_cases hk : k' = k
  · rw [hk, alGet_alDel_self] at h
    exact absurd h (by simp)
  · rwa [alGet_alDel_ne l k k' hk] at h

/-! ### The in-memory cache backend (src/scrapers/cache.py lines 82-119) -/

/-- Truthiness of the optional integer `ttl` in `if ttl:`: `None` and `0`
are falsy, every other integer is truthy. -/
def ttlTruthy : Option Int → Bool
  | Option.none => false
  | some t => t != 0

/-- `MemoryCache.__init__`: the `_cache` and `_expiry` dictionaries. -/
structure MemoryCache where
  cache : List (String × Value)
  expiry : List (String × Int)

def MemoryCache.empty : MemoryCache := ⟨[], []⟩

/-- `MemoryCache._is_expired`: a key with no recorded expiry never expires;
otherwise it is expired when the current instant is strictly past the
recorded one. -/
def MemoryCache.is_expired (c : MemoryCache) (key : String) (now : Int) : Bool :=
  match alGet c.expiry key with
  | Option.none => false
  | some e => decide (e < now)

/-- `MemoryCache.get`: on a miss (absent or expired) both dictionary entries
for the key are deleted and `None` is returned; otherwise the stored value
is returned and the state is untouched. -/
def MemoryCache.get (c : MemoryCache) (key : String) (now : Int) : Value × MemoryCache :=
  if (alGet c.cache key).isNone || c.is_expired key now then
    (Value.none, ⟨alDel c.cache key, alDel c.expiry key⟩)
  else
    ((alGet c.cache key).getD Value.none, c)

/-- `MemoryCache.set`: store the value; a truthy `ttl` records
`now + timedelta(seconds=ttl)` as the expiry, a falsy one deletes any prior
expiry for the key. -/
def MemoryCache.set (c : MemoryCache) (key : String) (v : Value) (ttl : Option Int)
    (now : Int) : MemoryCache :=
  if ttlTruthy ttl then
    ⟨alSet c.cache key v, alSet c.expiry key (now + ttl.getD 0)⟩
  else
    ⟨alSet c.cache key v, alDel c.expiry key⟩

/-- `MemoryCache.delete`: `pop` with a default never raises. -/
def MemoryCache.delete (c : MemoryCache) (key : String) : MemoryCache :=
  ⟨alDel c.cache key, alDel c.expiry key⟩

/-- `MemoryCache.exists`: present in `_cache` and not expired. -/
def MemoryCache.exists (c : MemoryCache) (key : String) (now : Int) : Bool :=
  (alGet c.cache key).isSome && ! c.is_expired key now

/-! The write operations of the in-memory cache.  `get` also mutates the
cache (it evicts an expired entry it reads), but the spec's invariant is
quantified over sequences of `set`/`delete` operations. -/

inductive CacheOp : Type where
  | set : String → Value → Option Int → Int → CacheOp
  | delete : String → CacheOp

def applyOp (c : MemoryCache) : CacheOp → MemoryCache
  | CacheOp.set k v ttl now => c.set k v ttl now
  | CacheOp.delete k => c.delete k

def runOps (ops : List CacheOp) : MemoryCache :=
  ops.foldl applyOp MemoryCache.empty

/-- The operation does not store the Python value `None`. -/
def opValueOk : CacheOp → Prop
  | CacheOp.set _ v _ _ => v ≠ Value.none
  | CacheOp.delete _ => True

/-! ### The memoization wrapper `CachedMethod` (src/scrapers/cache.py
lines 130-155) -/

/-- The decorator's configuration: the TTL applied to every stored result
and the key prefix (its `cache` field is the `MemoryCache` threaded through
`CachedMethod.call` below). -/
structure CachedMethod where
  ttl : Option Int
  keyPfx : String

/-- The cache key built by the wrapper:
`f"{self.key_prefix}{func.__name__}:{create_cache_key(*args[1:], **kwargs)}"`
(the first positional argument, `self`, is dropped). -/
def cacheKeyFor (md5hex : String → String) (cm : CachedMethod) (funcName : String)
    (args : List Value) (kwargs : List (String × Value)) : String :=
  cm.keyPfx ++ funcName ++ ":" ++ create_cache_key md5hex (args.drop 1) kwargs

/-- One call of the wrapped function.  `func` is the underlying compute
function; its last argument is the index of the invocation, so a
non-deterministic upstream is allowed.  `calls` counts how often `func` has
been invoked; the result is `(returned value, cache state, call count)`. -/
def CachedMethod.call (md5hex : String → String) (cm : CachedMethod) (funcName : String)
    (func : List Value → List (String × Value) → Nat → Value)
    (args : List Value) (kwargs : List (String × Value))
    (c : MemoryCache) (calls : Nat) (now : Int) : Value × MemoryCache × Nat :=
  let cache_key := cacheKeyFor md5hex cm funcName args kwargs
  let r := c.get cache_key now
  if ! r.1.isNone then
    (r.1, r.2, calls)
  else
    let result := func args kwargs calls
    let c2 := r.2.set cache_key result cm.ttl now
    (result, c2, calls + 1)

/-! ### The capability adapter `SourceAdapter` (src/scrapers/source.py) -/

/-- An attribute of the raw client object: a callable method or a plain
(non-callable) value. -/
inductive PyAttr : Type where
  | callable : (List Value → Value) → PyAttr
  | plain : Value → PyAttr

/-- The raw client: its attribute table, as enumerated by `dir()` /
`getattr` (attribute names of a Python object are unique). -/
structure RawSource where
  attrs : List (String × PyAttr)

/-- `name.startswith('_')`. -/
def pyPrivate (n : String) : Bool :=
  match n.data with
  | [] => false
  | c :: _ => c = '_'

/-- `SourceAdapter._introspect_methods`: keep every public attribute that is
callable. -/
def introspectList : List (String × PyAttr) → List (String × (List Value → Value))
  | [] => []
  | (n, a) :: t =>
      if ! pyPrivate n then
        match a with
        | PyAttr.callable f => (n, f) :: introspectList t
        | PyAttr.plain _ => introspectList t
      else introspectList t

def SourceAdapter.introspect_methods (src : RawSource) :
    List (String × (List Value → Value)) :=
  introspectList src.attrs

/-- The message of the `AttributeError` raised by `SourceAdapter.__call__`
for an unknown method name. -/
def methodNotFoundMsg (name : String) : String :=
  "Method \x27" ++ name ++ "\x27 not found in source"

/-- `SourceAdapter.__call__(method_name, *args)`: look the name up in the
discovered table; raise `AttributeError` when absent, otherwise call the
recorded handle and return its result unmodified. -/
def SourceAdapter.call (methods : List (String × (List Value → Value)))
    (name : String) (args : List Value) : Except String Value :=
  match alGet methods name with
  | Option.none => Except.error (methodNotFoundMsg name)
  | some f => Except.ok (f args)

/-! ### The Redis cache backend (src/scrapers/cache.py lines 33-80)

The `redis` client and `json` codec are external libraries: the client is
modelled as a store plus an unreachability flag (every operation on an
unreachable client raises `redis.RedisError`), and `json.loads` is a
parameter that either decodes a stored string or fails (raising
`json.JSONDecodeError`); `json.dumps(value, default=str)` is a parameter
that always produces a string. -/

inductive PyExc : Type where
  | redisError : PyExc
  | jsonDecodeError : PyExc

structure RedisClient where
  down : Bool
  store : List (String × String)

def RedisClient.rget (c : RedisClient) (k : String) : Except PyExc (Option String) :=
  if c.down then Except.error PyExc.redisError else Except.ok (alGet c.store k)

def RedisClient.rset (c : RedisClient) (k v : String) : Except PyExc RedisClient :=
  if c.down then Except.error PyExc.redisError else Except.ok ⟨c.down, alSet c.store k v⟩

/-- `setex` stores the value with a server-side TTL; the server's own expiry
behaviour is external to this repository, so only the stored value is
modelled. -/
def RedisClient.rsetex (c : RedisClient) (k : String) (ttl : Int) (v : String) :
    Except PyExc RedisClient :=
  if c.down then Except.error PyExc.redisError else Except.ok ⟨c.down, alSet c.store k v⟩

def RedisClient.rdel (c : RedisClient) (k : String) : Except PyExc RedisClient :=
  if c.down then Except.error PyExc.redisError else Except.ok ⟨c.down, alDel c.store k⟩

def RedisClient.rexists (c : RedisClient) (k : String) : Except PyExc Bool :=
  if c.down then Except.error PyExc.redisError else Except.ok (alGet c.store k).isSome

structure RedisCache where
  client : RedisClient
  keyPfx : String

/-- `RedisCache._make_key`. -/
def RedisCache.make_key (c : RedisCache) (k : String) : String := c.keyPfx ++ k

/-- `RedisCache.get`: the `try` body fetches and decodes; the `except`
clause catches `redis.RedisError` and `json.JSONDecodeError` and returns
`None`; any other exception kind would propagate. -/
def RedisCache.get (loads : String → Option Value) (c : RedisCache) (k : String) :
    Except PyExc (Option Value) :=
  let body : Except PyExc (Option Value) :=
    match c.client.rget (c.make_key k) with
    | Except.error e => Except.error e
    | Except.ok Option.none => Except.ok Option.none
    | Except.ok (some data) =>
        match loads data with
        | Option.none => Except.error PyExc.jsonDecodeError
        | some v => Except.ok (some v)
  match body with
  | Except.error PyExc.redisError => Except.ok Option.none
  | Except.error PyExc.jsonDecodeError => Except.ok Option.none
  | r => r

/-- `RedisCache.set`: serialize, then `setex`/`set` depending on the
truthiness of `ttl`; `redis.RedisError` and `json.JSONDecodeError` are
absorbed (the set degrades to a no-op). -/
def RedisCache.set (dumpsFn : Value → String) (c : RedisCache) (k : String) (v : Value)
    (ttl : Option Int) : Except PyExc RedisCache :=
  let body : Except PyExc RedisClient :=
    let serialized := dumpsFn v
    if ttlTruthy ttl then c.client.rsetex (c.make_key k) (ttl.getD 0) serialized
    else c.client.rset (c.make_key k) serialized
  match body with
  | Except.error PyExc.redisError => Except.ok c
  | Except.error PyExc.jsonDecodeError => Except.ok c
  | Except.ok cl => Except.ok ⟨cl, c.keyPfx⟩

/-- `RedisCache.delete`: only `redis.RedisError` is caught. -/
def RedisCache.delete (c : RedisCache) (k : String) : Except PyExc RedisCache :=
  match c.client.rdel (c.make_key k) with
  | Except.error PyExc.redisError => Except.ok c
  | Except.error e => Except.error e
  | Except.ok cl => Except.ok ⟨cl, c.keyPfx⟩

/-- `RedisCache.exists`: only `redis.RedisError` is caught; it degrades to
`False`. -/
def RedisCache.exists (c : RedisCache) (k : String) : Except PyExc Bool :=
  match c.client.rexists (c.make_key k) with
  | Except.error PyExc.redisError => Except.ok false
  | Except.error e => Except.error e
  | Except.ok b => Except.ok b

/-! ### The result envelope `ScrapeResult` (src/scrapers/scraper.py
lines 12-21) -/

structure ScrapeResult (T : Type) where
  data : List T
  timestamp : Int
  error : Option String

/-- Construction of a `ScrapeResult` followed by `__post_init__`: a caller
that does not supply a timestamp passes `None` for the field (the dataclass
gives it no default), and `__post_init__` replaces `None` by
`datetime.now()`, the construction instant. -/
def ScrapeResult.make {T : Type} (data : List T) (timestamp : Option Int)
    (error : Option String) (now : Int) : ScrapeResult T :=
  { data := data, timestamp := timestamp.getD now, error := error }

/-! ### The orchestrator `TwitterScraper` (src/scrapers/twitter_scraper.py)

The tweepy client is external: its two operations either return a response
or raise a fault (`Except.error`).  `tweepy.Tweet` items are opaque
payloads, modelled as `Value`.  The scraper's Redis client is `None` or a
plain keyed store (its `get`/`setex` are assumed not to fail here; the
fault studied by the claim comes from the tweepy client). -/

structure UserResponse where
  id : String

structure TweetsResponse where
  data : List Value

structure TweepyClient where
  get_user : String → Except String UserResponse
  get_users_tweets : String → Int → Except String TweetsResponse

/-- `TwitterScraper._get_user_id_cached`: consult the Redis cache (a truthy
cached string is returned directly), otherwise call `client.get_user` —
with no `try` around it — and cache the result with `setex` (TTL 2592000,
server-side). -/
def TwitterScraper.get_user_id_cached (client : TweepyClient)
    (redisCl : Option (List (String × String))) (username : String) :
    Except String (String × Option (List (String × String))) :=
  let cache_key := "twitter_user_id:" ++ username
  let hit : Option String :=
    match redisCl with
    | Option.none => Option.none
    | some store =>
        match alGet store cache_key with
        | some cached => if cached != "" then some cached else Option.none
        | Option.none => Option.none
  match hit with
  | some s => Except.ok (s, redisCl)
  | Option.none =>
      match client.get_user username with
      | Except.error e => Except.error e
      | Except.ok resp =>
          let user_id := resp.id
          let redisCl2 : Option (List (String × String)) :=
            match redisCl with
            | Option.none => Option.none
            | some store => some (alSet store cache_key user_id)
          Except.ok (user_id, redisCl2)

/-- `TwitterScraper._get_tweets_cached`: call `client.get_users_tweets` —
again with no `try` — return `[]` on an empty response, else cache the
tweet count (`setex`, TTL 900) and return the tweets. -/
def TwitterScraper.get_tweets_cached (client : TweepyClient)
    (redisCl : Option (List (String × String))) (user_id : String) :
    Except String (List Value × Option (List (String × String))) :=
  let cache_key := "twitter_tweets:" ++ user_id
  match client.get_users_tweets user_id 10 with
  | Except.error e => Except.error e
  | Except.ok resp =>
      if resp.data.isEmpty then Except.ok ([], redisCl)
      else
        let redisCl2 : Option (List (String × String)) :=
          match redisCl with
          | Option.none => Option.none
          | some store => some (alSet store cache_key (toString resp.data.length))
        Except.ok (resp.data, redisCl2)

/-- `TwitterScraper._fetch_tweets`: resolve the hard-coded username, then
fetch that user's tweets. -/
def TwitterScraper.fetch_tweets (client : TweepyClient)
    (redisCl : Option (List (String × String))) :
    Except String (List Value × Option (List (String × String))) :=
  let username := "elonmusk"
  match TwitterScraper.get_user_id_cached client redisCl username with
  | Except.error e => Except.error e
  | Except.ok (user_id, r2) => TwitterScraper.get_tweets_cached client r2 user_id

/-- `TwitterScraper.scrape`: wrap `_fetch_tweets` in a `ScrapeResult` with
the current instant as timestamp — there is no `try/except`, so a fault
raised by the client propagates out of `scrape` itself. -/
def TwitterScraper.scrape (client : TweepyClient)
    (redisCl : Option (List (String × String))) (now : Int) :
    Except String (ScrapeResult Value × Option (List (String × String))) :=
  match TwitterScraper.fetch_tweets client redisCl with
  | Except.error e => Except.error e
  | Except.ok (tweets, r2) =>
      Except.ok ({ data := tweets, timestamp := now, error := Option.none }, r2)

/-- A stub client whose `get_user` raises a fault, the configuration of
end-to-end scenario B. -/
def faultyClient : TweepyClient where
  get_user := fun _ => Except.error "upstream fault in get_user"
  get_users_tweets := fun _ _ => Except.error "upstream fault in get_users_tweets"

/-! ### Behaviour lemmas for the in-memory cache -/

theorem MemoryCache.get_hit {c : MemoryCache} {k : String} {now : Int} {v : Value}
    (h1 : alGet c.cache k = some v) (h2 : c.is_expired k now = false) :
    c.get k now = (v, c) := by
  simp [MemoryCache.get, h1, h2]

theorem MemoryCache.set_cache (c : MemoryCache) (k : String) (v : Value)
    (ttl : Option Int) (now : Int) : (c.set k v ttl now).cache = alSet c.cache k v := by
  unfold MemoryCache.set
  split <;> rfl

theorem MemoryCache.set_truthy_eq {c : MemoryCache} {k : String} {v : Value}
    {ttl : Option Int} {now : Int} (h : ttlTruthy ttl = true) :
    c.set k v ttl now = ⟨alSet c.cache k v, alSet c.expiry k (now + ttl.getD 0)⟩ := by
  simp [MemoryCache.set, h]

theorem MemoryCache.set_falsy_eq {c : MemoryCache} {k : String} {v : Value}
    {ttl : Option Int} {now : Int} (h : ttlTruthy ttl = false) :
    c.set k v ttl now = ⟨alSet c.cache k v, alDel c.expiry k⟩ := by
  simp [MemoryCache.set, h]

theorem MemoryCache.get_cases (c : MemoryCache) (k : String) (now : Int) :
    (c.get k now = (Value.none, ⟨alDel c.cache k, alDel c.expiry k⟩) ∧
      ((alGet c.cache k).isNone || c.is_expired k now) = true) ∨
    (alGet c.cache k = some ((c.get k now).1) ∧ (c.get k now).2 = c ∧
      c.is_expired k now = false) := by
  by_cases hc : ((alGet c.cache k).isNone || c.is_expired k now) = true
  · left
    exact ⟨by simp [MemoryCache.get, hc], hc⟩
  · right
    simp only [Bool.or_eq_true, not_or, Bool.not_eq_true] at hc
    obtain ⟨h1, h2⟩ := hc
    cases hga : alGet c.cache k with
    | none => rw [hga] at h1; simp at h1
    | some w =>
        have hg : c.get k now = (w, c) := MemoryCache.get_hit hga h2
        rw [hg]
        exact ⟨by simp [hga], rfl, h2⟩

/-! ### C5 -/

/-- C5: for every key `k`, value `v` and TTL `t > 0` on the in-memory
cache, immediately after `set(k, v, t)` the operations `get`/`exists`
return `v`/`true`; at every instant strictly more than `t` seconds after
the set (with no intervening writes), `get` returns absent and `exists`
returns `false` — expiry is decided at read time by `_is_expired`, there is
no background process in the model or the code. -/
theorem C5_set_with_ttl_then_reads (c : MemoryCache) (k : String) (v : Value)
    (t : Int) (now : Int) (ht : 0 < t) :
    (((c.set k v (some t) now).get k now).1 = v ∧
      (c.set k v (some t) now).exists k now = true) ∧
    ∀ now2 : Int, now + t < now2 →
      ((c.set k v (some t) now).get k now2).1 = Value.none ∧
      (c.set k v (some t) now).exists k now2 = false := by
  have htt : ttlTruthy (some t) = true := by
    simp only [ttlTruthy, bne_iff_ne, ne_eq]
    omega
  have hset : c.set k v (some t) now = ⟨alSet c.cache k v, alSet c.expiry k (now + t)⟩ :=
    MemoryCache.set_truthy_eq htt
  have hexp : ∀ now2 : Int,
      (c.set k v (some t) now).is_expired k now2 = decide (now + t < now2) := by
    intro now2
    rw [hset]
    simp [MemoryCache.is_expired, alGet_alSet_self]
  have hcache : alGet (c.set k v (some t) now).cache k = some v := by
    rw [hset]
    exact alGet_alSet_self _ _ _
  constructor
  · have hnotexp : (c.set k v (some t) now).is_expired k now = false := by
      rw [hexp]
      simp only [decide_eq_false_iff_not, not_lt]
      omega
    constructor
    · rw [MemoryCache.get_hit hcache hnotexp]
    · simp [MemoryCache.exists, hcache, hnotexp]
  · intro now2 h2
    have hexp2 : (c.set k v (some t) now).is_expired k now2 = true := by
      rw [hexp]
      simpa using h2
    constructor
    · simp [MemoryCache.get, hexp2]
    · simp [MemoryCache.exists, hexp2]

/-- C5 witness: a concrete instantiation of `C5_set_with_ttl_then_reads`
with `t = 1` at instants `0` (fresh) and `2` (more than `t` past the
write). -/
theorem C5_witness :
    (0 : Int) < 1 ∧ (0 : Int) + 1 < 2 ∧
    ((MemoryCache.empty.set "k" (Value.int 7) (some 1) 0).get "k" 0).1 = Value.int 7 ∧
    (MemoryCache.empty.set "k" (Value.int 7) (some 1) 0).exists "k" 0 = true ∧
    ((MemoryCache.empty.set "k" (Value.int 7) (some 1) 0).get "k" 2).1 = Value.none ∧
    (MemoryCache.empty.set "k" (Value.int 7) (some 1) 0).exists "k" 2 = false := by
  have h := C5_set_with_ttl_then_reads MemoryCache.empty "k" (Value.int 7) 1 0 (by decide)
  exact ⟨by decide, by decide, h.1.1, h.1.2, (h.2 2 (by decide)).1, (h.2 2 (by decide)).2⟩

/-! ### C6 -/

/-- C6: `set(k, v)` with no TTL stores an entry with no expiry — `get(k)`
returns `v` at every instant, even when an earlier write to `k` (part of
the arbitrary prior state `c`) had recorded a TTL — and a later `set` on
the same key that does carry a TTL `t > 0` installs the new expiry
`now2 + t`, after which the entry expires; the TTL is never inherited from
a prior write. -/
theorem C6_set_without_ttl_no_expiry (c : MemoryCache) (k : String) (v : Value)
    (now1 : Int) :
    (∀ now2 : Int, ((c.set k v Option.none now1).get k now2).1 = v ∧
      (c.set k v Option.none now1).exists k now2 = true) ∧
    ∀ v' : Value, ∀ t now2 : Int, 0 < t →
      alGet (((c.set k v Option.none now1).set k v' (some t) now2)).expiry k =
        some (now2 + t) ∧
      ∀ now3 : Int, now2 + t < now3 →
        (((c.set k v Option.none now1).set k v' (some t) now2).get k now3).1 =
          Value.none := by
  have hset : c.set k v Option.none now1 = ⟨alSet c.cache k v, alDel c.expiry k⟩ :=
    MemoryCache.set_falsy_eq rfl
  have hnoexp : ∀ now2 : Int, (c.set k v Option.none now1).is_expired k now2 = false := by
    intro now2
    rw [hset]
    simp [MemoryCache.is_expired, alGet_alDel_self]
  have hcache : alGet (c.set k v Option.none now1).cache k = some v := by
    rw [hset]
    exact alGet_alSet_self _ _ _
  constructor
  · intro now2
    constructor
    · rw [MemoryCache.get_hit hcache (hnoexp now2)]
    · simp [MemoryCache.exists, hcache, hnoexp now2]
  · intro v' t now2 ht
    have htt : ttlTruthy (some t) = true := by
      simp only [ttlTruthy, bne_iff_ne, ne_eq]
      omega
    have hset2 : (c.set k v Option.none now1).set k v' (some t) now2 =
        ⟨alSet (c.set k v Option.none now1).cache k v',
          alSet (c.set k v Option.none now1).expiry k (now2 + t)⟩ :=
      MemoryCache.set_truthy_eq htt
    constructor
    · rw [hset2]
      exact alGet_alSet_self _ _ _
    · intro now3 h3
      have hexp3 : ((c.set k v Option.none now1).set k v' (some t) now2).is_expired
          k now3 = true := by
        rw [hset2]
        simp only [MemoryCache.is_expired, alGet_alSet_self]
        simpa using h3
      simp [MemoryCache.get, hexp3]

/-- C6 witness: concrete instantiation; the prior state stores `k` with a
TTL, the no-TTL write erases that expiry, a later TTL write reinstates
one. -/
theorem C6_witness :
    ((MemoryCache.empty.set "k" (Value.str "old") (some 5) 0).set "k"
        (Value.str "v") Option.none 10).exists "k" 1000000 = true ∧
    (0 : Int) < 3 ∧
    alGet (((MemoryCache.empty.set "k" (Value.str "old") (some 5) 0).set "k"
        (Value.str "v") Option.none 10).set "k" (Value.str "w") (some 3) 20).expiry
        "k" = some 23 ∧
    (20 : Int) + 3 < 24 ∧
    ((((MemoryCache.empty.set "k" (Value.str "old") (some 5) 0).set "k"
        (Value.str "v") Option.none 10).set "k" (Value.str "w") (some 3) 20).get
        "k" 24).1 = Value.none := by
  have h := C6_set_without_ttl_no_expiry
    (MemoryCache.empty.set "k" (Value.str "old") (some 5) 0) "k" (Value.str "v") 10
  exact ⟨(h.1 1000000).2, by decide, (h.2 (Value.str "w") 3 20 (by decide)).1, by decide,
    (h.2 (Value.str "w") 3 20 (by decide)).2 24 (by decide)⟩

/-! ### C10 -/

/-- C10: `set(k, v, 0)` — a TTL of exactly zero — behaves exactly like
`set(k, v)` with no TTL, because `if ttl:` treats `0` as falsy: the
resulting state is identical, the key carries no expiry (any prior expiry
for `k` is cleared), and `get(k)` returns `v` at every later instant rather
than the entry being immediately absent. -/
theorem C10_set_zero_ttl_means_no_expiry (c : MemoryCache) (k : String) (v : Value)
    (now : Int) :
    c.set k v (some 0) now = c.set k v Option.none now ∧
    alGet (c.set k v (some 0) now).expiry k = Option.none ∧
    ∀ now2 : Int, ((c.set k v (some 0) now).get k now2).1 = v ∧
      (c.set k v (some 0) now).exists k now2 = true := by
  have hset : c.set k v (some 0) now = ⟨alSet c.cache k v, alDel c.expiry k⟩ :=
    MemoryCache.set_falsy_eq rfl
  refine ⟨by rw [hset, @MemoryCache.set_falsy_eq c k v Option.none now rfl], ?_, ?_⟩
  · rw [hset]
    exact alGet_alDel_self _ _
  · intro now2
    have hnoexp : (c.set k v (some 0) now).is_expired k now2 = false := by
      rw [hset]
      simp [MemoryCache.is_expired, alGet_alDel_self]
    have hcache : alGet (c.set k v (some 0) now).cache k = some v := by
      rw [hset]
      exact alGet_alSet_self _ _ _
    constructor
    · rw [MemoryCache.get_hit hcache hnoexp]
    · simp [MemoryCache.exists, hcache, hnoexp]

/-! ### C9 -/

/-- C9: whenever the timestamp is not supplied (the caller passes `None`
for the field, the only way to leave it unset that completes construction),
the constructed `ScrapeResult`'s timestamp equals the construction instant;
a supplied timestamp is kept as given. -/
theorem C9_timestamp_defaults_to_now (T : Type) (data : List T) (error : Option String)
    (now : Int) :
    (ScrapeResult.make data Option.none error now).timestamp = now ∧
    ∀ ts : Int, (ScrapeResult.make data (some ts) error now).timestamp = ts := by
  exact ⟨rfl, fun _ => rfl⟩

/-! ### C1 -/

/-- C1: the claim fails on the code.  `TwitterScraper.scrape` contains no
`try/except`: with a stub client whose `get_user` raises, the fault
propagates out of `scrape()` to its caller, and no `ScrapeResult` with
empty `data` and populated `error` is produced (the `error` field is in
fact never populated anywhere in the repository, although the demo code in
`twitter_scraper.py` checks `result.error`). -/
theorem C1_scrape_propagates_client_fault :
    TwitterScraper.scrape faultyClient Option.none 0 =
      Except.error "upstream fault in get_user" ∧
    ∀ (res : ScrapeResult Value) (st : Option (List (String × String))),
      TwitterScraper.scrape faultyClient Option.none 0 ≠ Except.ok (res, st) := by
  refine ⟨rfl, ?_⟩
  intro res st h
  rw [show TwitterScraper.scrape faultyClient Option.none 0 =
    Except.error "upstream fault in get_user" from rfl] at h
  exact Except.noConfusion h

/-! ### C2 -/

/-- No value stored in the cache dictionary is the Python object `None`. -/
def cacheValuesOk (c : MemoryCache) : Prop :=
  ∀ k v, alGet c.cache k = some v → v ≠ Value.none

theorem cacheValuesOk_empty : cacheValuesOk MemoryCache.empty := by
  intro k v h
  simp [MemoryCache.empty, alGet] at h

theorem cacheValuesOk_applyOp {c : MemoryCache} {op : CacheOp}
    (hc : cacheValuesOk c) (hop : opValueOk op) : cacheValuesOk (applyOp c op) := by
  cases op with
  | set k v ttl now =>
      intro k' v' h
      rw [applyOp, MemoryCache.set_cache] at h
      by_cases hk : k' = k
      · rw [hk, alGet_alSet_self] at h
        injection h with h2
        rw [← h2]
        exact hop
      · rw [alGet_alSet_ne _ _ _ _ hk] at h
        exact hc k' v' h
  | delete k =>
      intro k' v' h
      rw [applyOp] at h
      exact hc k' v' (alGet_alDel_some _ _ _ _ h)

theorem cacheValuesOk_foldl : ∀ (ops : List CacheOp) (c : MemoryCache),
    (∀ op ∈ ops, opValueOk op) → cacheValuesOk c → cacheValuesOk (ops.foldl applyOp c)
  | [], _, _, hc => hc
  | op :: t, c, h, hc =>
      cacheValuesOk_foldl t _ (fun o ho => h o (List.mem_cons_of_mem _ ho))
        (cacheValuesOk_applyOp hc (h op (List.mem_cons_self _ _)))

/-- C2 (amended): after every finite sequence of `set`/`delete` operations
none of which stores the Python value `None`, and at every evaluation
instant, `exists(k)` is `true` exactly when `get(k)` at that same instant
returns a value other than `None` — expiry is judged identically by both.
(The restriction is forced: storing `None` itself makes the two observably
disagree, see the counterexample.) -/
theorem C2_exists_iff_get_when_no_none_stored (ops : List CacheOp)
    (h : ∀ op ∈ ops, opValueOk op) (k : String) (now : Int) :
    (runOps ops).exists k now = true ↔ ((runOps ops).get k now).1 ≠ Value.none := by
  have hv : cacheValuesOk (runOps ops) :=
    cacheValuesOk_foldl ops MemoryCache.empty h cacheValuesOk_empty
  rcases MemoryCache.get_cases (runOps ops) k now with ⟨hg, hcond⟩ | ⟨hg, _, hexp⟩
  · have hfalse : (runOps ops).exists k now = false := by
      rw [Bool.or_eq_true] at hcond
      rcases hcond with ha | hb
      · simp [MemoryCache.exists, Option.isNone_iff_eq_none.mp ha]
      · simp [MemoryCache.exists, hb]
    rw [hg, hfalse]
    simp
  · have hne : ((runOps ops).get k now).1 ≠ Value.none := hv k _ hg
    have hex : (runOps ops).exists k now = true := by
      simp [MemoryCache.exists, hg, hexp]
    simp [hex, hne]

/-- C2 counterexample: the claim as stated is false for the stored value
`None`.  After `set("k", None)`, `exists("k")` answers `true` while
`get("k")` returns `None` — the very token by which `get` reports absence —
so the two operations disagree at the same instant. -/
theorem C2_counterexample :
    (runOps [CacheOp.set "k" Value.none Option.none 0]).exists "k" 0 = true ∧
    ((runOps [CacheOp.set "k" Value.none Option.none 0]).get "k" 0).1 = Value.none := by
  constructor <;> rfl

/-- C2 witness: the amended invariant applied to the concrete trace
`[set "k" 1]` at instant `5`. -/
theorem C2_witness :
    (∀ op ∈ [CacheOp.set "k" (Value.int 1) Option.none 0], opValueOk op) ∧
    ((runOps [CacheOp.set "k" (Value.int 1) Option.none 0]).exists "k" 5 = true ↔
      ((runOps [CacheOp.set "k" (Value.int 1) Option.none 0]).get "k" 5).1 ≠ Value.none) := by
  have hops : ∀ op ∈ [CacheOp.set "k" (Value.int 1) Option.none 0], opValueOk op := by
    intro op hop
    simp only [List.mem_singleton] at hop
    subst hop
    exact fun hc => Value.noConfusion hc
  exact ⟨hops, C2_exists_iff_get_when_no_none_stored _ hops "k" 5⟩

/-! ### C8 -/

/-- C8: every operation of the Redis-backed cache is total.  For all
behaviours of the external pieces — the `json` codec (`loads`/`dumpsFn`
parameters) and the redis client (any store, reachable or not) — `get`,
`set`, `delete` and `exists` return normally (`Except.ok`), never a fault.
With the backend unreachable, `get` degrades to `None`, `set` and `delete`
to no-ops on the cache object, `exists` to `false`; a stored string that
fails to decode degrades `get` to `None` as well. -/
theorem C8_redis_operations_total_and_degrade :
    (∀ (loads : String → Option Value) (c : RedisCache) (k : String),
      ∃ r, RedisCache.get loads c k = Except.ok r) ∧
    (∀ (dumpsFn : Value → String) (c : RedisCache) (k : String) (v : Value)
        (ttl : Option Int), ∃ c2, RedisCache.set dumpsFn c k v ttl = Except.ok c2) ∧
    (∀ (c : RedisCache) (k : String), ∃ c2, RedisCache.delete c k = Except.ok c2) ∧
    (∀ (c : RedisCache) (k : String), ∃ b, RedisCache.exists c k = Except.ok b) ∧
    (∀ (loads : String → Option Value) (dumpsFn : Value → String)
        (store : List (String × String)) (pfx k : String) (v : Value) (ttl : Option Int),
      RedisCache.get loads ⟨⟨true, store⟩, pfx⟩ k = Except.ok Option.none ∧
      RedisCache.set dumpsFn ⟨⟨true, store⟩, pfx⟩ k v ttl = Except.ok ⟨⟨true, store⟩, pfx⟩ ∧
      RedisCache.delete ⟨⟨true, store⟩, pfx⟩ k = Except.ok ⟨⟨true, store⟩, pfx⟩ ∧
      RedisCache.exists ⟨⟨true, store⟩, pfx⟩ k = Except.ok false) ∧
    (∀ (store : List (String × String)) (pfx k s : String),
      RedisCache.get (fun _ => Option.none) ⟨⟨false, (pfx ++ k, s) :: store⟩, pfx⟩ k =
        Except.ok Option.none) := by
  refine ⟨?_, ?_, ?_, ?_, ?_, ?_⟩
  · intro loads c k
    cases hd : c.client.down
    · cases hga : alGet c.client.store (c.make_key k) with
      | none =>
          refine ⟨Option.none, ?_⟩
          simp [RedisCache.get, RedisClient.rget, hd, hga]
      | some data =>
          cases hl : loads data with
          | none =>
              refine ⟨Option.none, ?_⟩
              simp [RedisCache.get, RedisClient.rget, hd, hga, hl]
          | some v =>
              refine ⟨some v, ?_⟩
              simp [RedisCache.get, RedisClient.rget, hd, hga, hl]
    · refine ⟨Option.none, ?_⟩
      simp [RedisCache.get, RedisClient.rget, hd]
  · intro dumpsFn c k v ttl
    cases hd : c.client.down
    · cases htt : ttlTruthy ttl
      · refine ⟨⟨⟨c.client.down, alSet c.client.store (c.make_key k) (dumpsFn v)⟩,
          c.keyPfx⟩, ?_⟩
        simp [RedisCache.set, RedisClient.rset, hd, htt]
      · refine ⟨⟨⟨c.client.down, alSet c.client.store (c.make_key k) (dumpsFn v)⟩,
          c.keyPfx⟩, ?_⟩
        simp [RedisCache.set, RedisClient.rsetex, hd, htt]
    · refine ⟨c, ?_⟩
      cases htt : ttlTruthy ttl
      · simp [RedisCache.set, RedisClient.rset, hd, htt]
      · simp [RedisCache.set, RedisClient.rsetex, hd, htt]
  · intro c k
    cases hd : c.client.down
    · exact ⟨⟨⟨c.client.down, alDel c.client.store (c.make_key k)⟩, c.keyPfx⟩,
        by simp [RedisCache.delete, RedisClient.rdel, hd]⟩
    · exact ⟨c, by simp [RedisCache.delete, RedisClient.rdel, hd]⟩
  · intro c k
    cases hd : c.client.down
    · exact ⟨(alGet c.client.store (c.make_key k)).isSome,
        by simp [RedisCache.exists, RedisClient.rexists, hd]⟩
    · exact ⟨false, by simp [RedisCache.exists, RedisClient.rexists, hd]⟩
  · intro loads dumpsFn store pfx k v ttl
    refine ⟨?_, ?_, ?_, ?_⟩
    · simp [RedisCache.get, RedisClient.rget]
    · cases htt : ttlTruthy ttl
      · simp [RedisCache.set, RedisClient.rset, htt]
      · simp [RedisCache.set, RedisClient.rsetex, htt]
    · simp [RedisCache.delete, RedisClient.rdel]
    · simp [RedisCache.exists, RedisClient.rexists]
  · intro store pfx k s
    simp [RedisCache.get, RedisClient.rget, RedisCache.make_key, alGet]

/-! ### C3 -/

/-- C3: the cache-key derivation is deterministic (it is a function) and
order-independent in the keyword arguments: for equal positional arguments
and keyword mappings that are permutations of each other (keyword names are
distinct, as they are in any Python call), `create_cache_key` produces the
identical key string — for every digest function, hence for `md5`. -/
theorem C3_create_cache_key_order_independent (md5hex : String → String)
    (args : List Value) (kwargs1 kwargs2 : List (String × Value))
    (hp : kwargs1.Perm kwargs2) (hnd : (kwargs1.map Prod.fst).Nodup) :
    create_cache_key md5hex args kwargs1 = create_cache_key md5hex args kwargs2 := by
  unfold create_cache_key keyData
  rw [sortByKey_eq_of_perm hp hnd]

/-- C3 witness: the two keyword orders `b=2, a="x"` and `a="x", b=2`
produce the same key. -/
theorem C3_witness :
    ([("b", Value.int 2), ("a", Value.str "x")] : List (String × Value)).Perm
      [("a", Value.str "x"), ("b", Value.int 2)] ∧
    ((([("b", Value.int 2), ("a", Value.str "x")] : List (String × Value)).map
      Prod.fst).Nodup) ∧
    create_cache_key (fun s => s) [Value.int 1]
        [("b", Value.int 2), ("a", Value.str "x")] =
      create_cache_key (fun s => s) [Value.int 1]
        [("a", Value.str "x"), ("b", Value.int 2)] := by
  refine ⟨List.Perm.swap _ _ _, by decide, ?_⟩
  exact C3_create_cache_key_order_independent (fun s => s) [Value.int 1] _ _
    (List.Perm.swap _ _ _) (by decide)

/-! ### C4 -/

theorem CachedMethod.call_hit {md5hex : String → String} {cm : CachedMethod}
    {funcName : String} {func : List Value → List (String × Value) → Nat → Value}
    {args : List Value} {kwargs : List (String × Value)} {c : MemoryCache}
    {calls : Nat} {now : Int}
    (h : ((c.get (cacheKeyFor md5hex cm funcName args kwargs) now).1).isNone = false) :
    CachedMethod.call md5hex cm funcName func args kwargs c calls now =
      ((c.get (cacheKeyFor md5hex cm funcName args kwargs) now).1,
       (c.get (cacheKeyFor md5hex cm funcName args kwargs) now).2, calls) := by
  unfold CachedMethod.call
  simp [h]

theorem CachedMethod.call_miss {md5hex : String → String} {cm : CachedMethod}
    {funcName : String} {func : List Value → List (String × Value) → Nat → Value}
    {args : List Value} {kwargs : List (String × Value)} {c : MemoryCache}
    {calls : Nat} {now : Int}
    (h : ((c.get (cacheKeyFor md5hex cm funcName args kwargs) now).1).isNone = true) :
    CachedMethod.call md5hex cm funcName func args kwargs c calls now =
      (func args kwargs calls,
       (c.get (cacheKeyFor md5hex cm funcName args kwargs) now).2.set
         (cacheKeyFor md5hex cm funcName args kwargs) (func args kwargs calls) cm.ttl now,
       calls + 1) := by
  unfold CachedMethod.call
  simp [h]

/-- After one wrapper call whose compute result is not `None`, the cache
state maps the derived key to the returned value, the returned value is not
`None`, and the compute counter rose by at most one. -/
theorem CachedMethod.call_stores {md5hex : String → String} {cm : CachedMethod}
    {funcName : String} {func : List Value → List (String × Value) → Nat → Value}
    {args : List Value} {kwargs : List (String × Value)} {c : MemoryCache}
    {calls : Nat} {now : Int}
    (hv : func args kwargs calls ≠ Value.none) :
    alGet (CachedMethod.call md5hex cm funcName func args kwargs c calls now).2.1.cache
        (cacheKeyFor md5hex cm funcName args kwargs) =
      some (CachedMethod.call md5hex cm funcName func args kwargs c calls now).1 ∧
    (CachedMethod.call md5hex cm funcName func args kwargs c calls now).1 ≠ Value.none ∧
    (CachedMethod.call md5hex cm funcName func args kwargs c calls now).2.2 ≤ calls + 1 := by
  cases hni : ((c.get (cacheKeyFor md5hex cm funcName args kwargs) now).1).isNone with
  | false =>
      rw [CachedMethod.call_hit hni]
      rcases MemoryCache.get_cases c (cacheKeyFor md5hex cm funcName args kwargs) now with
        ⟨hg, _⟩ | ⟨hg, hst, _⟩
      · rw [hg] at hni
        simp [Value.isNone] at hni
      · exact ⟨by rw [hst]; exact hg, Value.isNone_eq_false_iff.mp hni,
          Nat.le_succ calls⟩
  | true =>
      rw [CachedMethod.call_miss hni]
      refine ⟨?_, hv, le_refl _⟩
      rw [MemoryCache.set_cache]
      exact alGet_alSet_self _ _ _

/-- C4 (amended): for every compute function whose result is not the Python
value `None`, calling the memoized operation twice with identical arguments
while the cached entry is unexpired at the second call invokes the
underlying compute function at most once in total, and the second call
returns the first call's result.  (The restriction is forced: a compute
result of `None` is stored but then indistinguishable from a miss — see the
counterexample — so it is recomputed.) -/
theorem C4_memoizer_at_most_one_compute (md5hex : String → String) (cm : CachedMethod)
    (funcName : String) (func : List Value → List (String × Value) → Nat → Value)
    (args : List Value) (kwargs : List (String × Value))
    (c0 : MemoryCache) (cnt0 : Nat) (now1 now2 : Int)
    (hv : func args kwargs cnt0 ≠ Value.none)
    (hw : (CachedMethod.call md5hex cm funcName func args kwargs c0 cnt0 now1).2.1.is_expired
        (cacheKeyFor md5hex cm funcName args kwargs) now2 = false) :
    (CachedMethod.call md5hex cm funcName func args kwargs
        (CachedMethod.call md5hex cm funcName func args kwargs c0 cnt0 now1).2.1
        (CachedMethod.call md5hex cm funcName func args kwargs c0 cnt0 now1).2.2
        now2).2.2 ≤ cnt0 + 1 ∧
    (CachedMethod.call md5hex cm funcName func args kwargs
        (CachedMethod.call md5hex cm funcName func args kwargs c0 cnt0 now1).2.1
        (CachedMethod.call md5hex cm funcName func args kwargs c0 cnt0 now1).2.2
        now2).1 =
      (CachedMethod.call md5hex cm funcName func args kwargs c0 cnt0 now1).1 := by
  obtain ⟨hstore, hne, hcnt⟩ :=
    @CachedMethod.call_stores md5hex cm funcName func args kwargs c0 cnt0 now1 hv
  have hget2 : (CachedMethod.call md5hex cm funcName func args kwargs c0 cnt0
      now1).2.1.get (cacheKeyFor md5hex cm funcName args kwargs) now2 =
      ((CachedMethod.call md5hex cm funcName func args kwargs c0 cnt0 now1).1,
       (CachedMethod.call md5hex cm funcName func args kwargs c0 cnt0 now1).2.1) :=
    MemoryCache.get_hit hstore hw
  have hni2 : (((CachedMethod.call md5hex cm funcName func args kwargs c0 cnt0
      now1).2.1.get (cacheKeyFor md5hex cm funcName args kwargs) now2).1).isNone
      = false := by
    rw [hget2]
    exact Value.isNone_eq_false_iff.mpr hne
  rw [CachedMethod.call_hit hni2, hget2]
  exact ⟨hcnt, rfl⟩

/-- C4 counterexample: the claim as stated is false for a compute function
returning the Python value `None`.  With an empty memory cache and no TTL,
two wrapped calls with identical arguments invoke the compute function
twice — the first call stores `None`, which the second call's
`is not None` test treats as a miss — refuting "at most once in total". -/
theorem C4_counterexample :
    (CachedMethod.call (fun s => s) ⟨Option.none, ""⟩ "f" (fun _ _ _ => Value.none)
        [] []
        (CachedMethod.call (fun s => s) ⟨Option.none, ""⟩ "f" (fun _ _ _ => Value.none)
          [] [] MemoryCache.empty 0 0).2.1
        (CachedMethod.call (fun s => s) ⟨Option.none, ""⟩ "f" (fun _ _ _ => Value.none)
          [] [] MemoryCache.empty 0 0).2.2 0).2.2 = 2 ∧
    ¬ ((CachedMethod.call (fun s => s) ⟨Option.none, ""⟩ "f" (fun _ _ _ => Value.none)
        [] []
        (CachedMethod.call (fun s => s) ⟨Option.none, ""⟩ "f" (fun _ _ _ => Value.none)
          [] [] MemoryCache.empty 0 0).2.1
        (CachedMethod.call (fun s => s) ⟨Option.none, ""⟩ "f" (fun _ _ _ => Value.none)
          [] [] MemoryCache.empty 0 0).2.2 0).2.2 ≤ 0 + 1) := by
  constructor
  · rfl
  · intro h
    rw [show (CachedMethod.call (fun s => s) ⟨Option.none, ""⟩ "f"
        (fun _ _ _ => Value.none) [] []
        (CachedMethod.call (fun s => s) ⟨Option.none, ""⟩ "f" (fun _ _ _ => Value.none)
          [] [] MemoryCache.empty 0 0).2.1
        (CachedMethod.call (fun s => s) ⟨Option.none, ""⟩ "f" (fun _ _ _ => Value.none)
          [] [] MemoryCache.empty 0 0).2.2 0).2.2 = 2 from rfl] at h
    omega

/-- C4 witness: the amended theorem applied to a concrete compute function
returning `"r"`, with an empty cache, no TTL, both calls at instant `0`. -/
theorem C4_witness :
    ((fun (_ : List Value) (_ : List (String × Value)) (_ : Nat) => Value.str "r")
        [] [] 0 ≠ Value.none) ∧
    ((CachedMethod.call (fun s => s) ⟨Option.none, "p"⟩ "f"
        (fun _ _ _ => Value.str "r") [] [] MemoryCache.empty 0 0).2.1.is_expired
        (cacheKeyFor (fun s => s) ⟨Option.none, "p"⟩ "f" [] []) 0 = false) ∧
    ((CachedMethod.call (fun s => s) ⟨Option.none, "p"⟩ "f"
        (fun _ _ _ => Value.str "r") [] []
        (CachedMethod.call (fun s => s) ⟨Option.none, "p"⟩ "f"
          (fun _ _ _ => Value.str "r") [] [] MemoryCache.empty 0 0).2.1
        (CachedMethod.call (fun s => s) ⟨Option.none, "p"⟩ "f"
          (fun _ _ _ => Value.str "r") [] [] MemoryCache.empty 0 0).2.2 0).2.2 ≤ 0 + 1 ∧
      (CachedMethod.call (fun s => s) ⟨Option.none, "p"⟩ "f"
        (fun _ _ _ => Value.str "r") [] []
        (CachedMethod.call (fun s => s) ⟨Option.none, "p"⟩ "f"
          (fun _ _ _ => Value.str "r") [] [] MemoryCache.empty 0 0).2.1
        (CachedMethod.call (fun s => s) ⟨Option.none, "p"⟩ "f"
          (fun _ _ _ => Value.str "r") [] [] MemoryCache.empty 0 0).2.2 0).1 =
      (CachedMethod.call (fun s => s) ⟨Option.none, "p"⟩ "f"
        (fun _ _ _ => Value.str "r") [] [] MemoryCache.empty 0 0).1) := by
  refine ⟨fun h => Value.noConfusion h, rfl, ?_⟩
  exact C4_memoizer_at_most_one_compute (fun s => s) ⟨Option.none, "p"⟩ "f"
    (fun _ _ _ => Value.str "r") [] [] MemoryCache.empty 0 0 0
    (fun h => Value.noConfusion h) rfl

/-! ### C7 -/

theorem alGet_mem_keys {α : Type} : ∀ (l : List (String × α)) (k : String) (v : α),
    alGet l k = some v → k ∈ l.map Prod.fst
  | [], _, _, h => by simp [alGet] at h
  | (k1, v1) :: t, k, v, h => by
    by_cases hk : k1 = k
    · simp [hk]
    · simp only [alGet, hk, if_false] at h
      simp [alGet_mem_keys t k v h]

theorem introspectList_keys_subset : ∀ (l : List (String × PyAttr)) (k : String),
    k ∈ (introspectList l).map Prod.fst → k ∈ l.map Prod.fst
  | [], _, h => by simp [introspectList] at h
  | (n, a) :: t, k, h => by
    simp only [introspectList] at h
    by_cases hpriv : pyPrivate n
    · simp only [hpriv, Bool.not_true, Bool.false_eq_true, if_false] at h
      simp [introspectList_keys_subset t k h]
    · simp only [Bool.not_eq_true] at hpriv
      simp only [hpriv, Bool.not_false, if_true] at h
      cases a with
      | callable f =>
          simp only [List.map_cons, List.mem_cons] at h ⊢
          rcases h with h | h
          · exact Or.inl h
          · exact Or.inr (introspectList_keys_subset t k h)
      | plain w =>
          simp [introspectList_keys_subset t k h]

/-- With distinct attribute names, a handle found in the introspected table
is exactly the raw client's attribute under the same name. -/
theorem introspectList_lookup : ∀ (l : List (String × PyAttr)),
    (l.map Prod.fst).Nodup → ∀ (name : String) (f : List Value → Value),
    alGet (introspectList l) name = some f → alGet l name = some (PyAttr.callable f)
  | [], _, name, f, h => by simp [introspectList, alGet] at h
  | (n, a) :: t, hnd, name, f, h => by
    have hnd2 : (t.map Prod.fst).Nodup := (List.nodup_cons.mp hnd).2
    have hnmem : n ∉ t.map Prod.fst := (List.nodup_cons.mp hnd).1
    simp only [introspectList] at h
    by_cases hn : n = name
    · subst hn
      by_cases hpriv : pyPrivate n
      · simp only [hpriv, Bool.not_true, Bool.false_eq_true, if_false] at h
        exact absurd (introspectList_keys_subset t n (alGet_mem_keys _ n f h)) hnmem
      · simp only [Bool.not_eq_true] at hpriv
        simp only [hpriv, Bool.not_false, if_true] at h
        cases a with
        | callable g =>
            simp only [alGet, if_pos rfl] at h ⊢
            injection h with h2
            rw [h2]
            simp
        | plain w =>
            exact absurd (introspectList_keys_subset t n (alGet_mem_keys _ n f h)) hnmem
    · have hskip : alGet ((n, a) :: t) name = alGet t name := by
        simp [alGet, hn]
      rw [hskip]
      by_cases hpriv : pyPrivate n
      · simp only [hpriv, Bool.not_true, Bool.false_eq_true, if_false] at h
        exact introspectList_lookup t hnd2 name f h
      · simp only [Bool.not_eq_true] at hpriv
        simp only [hpriv, Bool.not_false, if_true] at h
        cases a with
        | callable g =>
            simp only [alGet, hn, if_false] at h
            exact introspectList_lookup t hnd2 name f h
        | plain w =>
            exact introspectList_lookup t hnd2 name f h

/-- C7: over any client with distinct attribute names, invoking a name
absent from the discovered table fails with the `AttributeError` message
that names the missing operation (the name occurs verbatim in the message),
and invoking a discovered name returns exactly the value the underlying
client operation — the client's own attribute under that name — produces
for the supplied arguments, unmodified. -/
theorem C7_adapter_invocation (src : RawSource) (name : String) (args : List Value)
    (hnd : (src.attrs.map Prod.fst).Nodup) :
    (alGet (SourceAdapter.introspect_methods src) name = Option.none →
      SourceAdapter.call (SourceAdapter.introspect_methods src) name args =
        Except.error (methodNotFoundMsg name) ∧
      name.data <:+: (methodNotFoundMsg name).data) ∧
    (∀ f, alGet (SourceAdapter.introspect_methods src) name = some f →
      SourceAdapter.call (SourceAdapter.introspect_methods src) name args =
        Except.ok (f args) ∧
      alGet src.attrs name = some (PyAttr.callable f)) := by
  constructor
  · intro h
    refine ⟨by simp [SourceAdapter.call, h], ?_⟩
    exact ⟨"Method \x27".data, "\x27 not found in source".data, rfl⟩
  · intro f hf
    exact ⟨by simp [SourceAdapter.call, hf],
      introspectList_lookup src.attrs hnd name f hf⟩

/-- A concrete raw client for the C7 witness: one public callable, one
private callable (excluded from discovery), one non-callable attribute. -/
def demoSource : RawSource :=
  ⟨[("fetch", PyAttr.callable (fun as => Value.arr as)),
    ("_secret", PyAttr.callable (fun _ => Value.none)),
    ("field", PyAttr.plain (Value.int 5))]⟩

/-- C7 witness: on `demoSource`, invoking the discovered name `fetch`
returns the underlying operation's result and invoking `missing_op` fails
with the message naming it. -/
theorem C7_witness :
    ((demoSource.attrs.map Prod.fst).Nodup) ∧
    SourceAdapter.call (SourceAdapter.introspect_methods demoSource) "fetch"
      [Value.int 1] = Except.ok (Value.arr [Value.int 1]) ∧
    SourceAdapter.call (SourceAdapter.introspect_methods demoSource) "missing_op"
      [] = Except.error (methodNotFoundMsg "missing_op") := by
  refine ⟨by decide, ?_, ?_⟩
  · exact ((C7_adapter_invocation demoSource "fetch" [Value.int 1] (by decide)).2
      _ rfl).1
  · exact ((C7_adapter_invocation demoSource "missing_op" [] (by decide)).1 rfl).1

end Scout
